import Mathlib

/-!
Verification development for the effects-and-completion join engine
(`joinForkOrChoose`, `joinBindings`, `joinValues`, `joinPropertyBindings`,
`joinDescriptors`, `collapseResults`, `joinMaps`, `joinGenerators`) and for
the shape-link resolution loop (`ShapeInformation._resolveLinksAndWrap`).

The join engine is embedded shallowly: JavaScript objects become inductive
types, identity-keyed maps become association lists keyed by identity data,
in-place mutation becomes explicit state passing (`StateT` for the generator
rewriting inside `joinBindings`; an explicit rebuild of the completion tree
for the single post-construction generator reset in `joinForkOrChoose`), and
exceptions (`invariant` failures, `FatalError` after a reported introspection
error) become an `Except JoinErr` result.

External collaborators that the source imports from modules outside the
repository slice (the value/condition model, `Generator`, the completion
class hierarchy's helper methods, descriptor helpers, `construct_empty_effects`)
are modelled from the specification; each such definition's doc comment says so.
-/

/-- Modelled from the spec: truth knowledge of a boolean-valued abstract
condition, backing the "might be true" / "might be false" queries. A condition
cannot be simultaneously impossible-to-be-true and impossible-to-be-false,
which this three-state encoding makes unrepresentable. -/
inductive TruthKnowledge where
  | unknown
  | alwaysTrue
  | alwaysFalse
  deriving DecidableEq, Repr

/-- Modelled from the spec: the opaque value model consumed by the join
engine. Concrete values (including the distinguished `empty` sentinel and the
`undefined` intrinsic) are separated from abstract values. Object values are
identified by an id, standing for JavaScript reference identity. An abstract
value is either an opaque abstract condition carrying its truth knowledge, or
the conditional abstract value built by `AbstractValue.createFromConditionalOp`
(its two operands are optional in the source; the `has…` flags encode their
presence). Numbers are modelled as integers. -/
inductive Value where
  | empty
  | undef
  | nullV
  | bool (b : Bool)
  | num (n : Int)
  | str (s : String)
  | obj (id : Nat)
  | absVar (id : Nat) (tk : TruthKnowledge)
  | absCond (cond : Value) (hasConsequent : Bool) (consequentOr : Value)
      (hasAlternate : Bool) (alternateOr : Value)
  deriving DecidableEq, Repr

namespace Value

/-- Is this value an `AbstractValue` (in the source's class hierarchy)? -/
def isAbstract : Value → Bool
  | .absVar _ _ => true
  | .absCond _ _ _ _ _ => true
  | _ => false

/-- Modelled from the spec: ECMAScript ToBoolean on concrete values, used to
answer the truth queries for concrete conditions. -/
def toBooleanConcrete : Value → Bool
  | .empty => false
  | .undef => false
  | .nullV => false
  | .bool b => b
  | .num n => n != 0
  | .str s => s != ""
  | .obj _ => true
  | .absVar _ _ => true
  | .absCond _ _ _ _ _ => true

/-- Modelled from the spec: the condition query "might not be true". False
means the condition is statically always true. A concrete value answers via
ToBoolean; an opaque abstract condition answers from its truth knowledge; a
conditional abstract value is treated as unknown. -/
def mightNotBeTrue : Value → Bool
  | .absVar _ tk => tk != TruthKnowledge.alwaysTrue
  | .absCond _ _ _ _ _ => true
  | v => !(toBooleanConcrete v)

/-- Modelled from the spec: the condition query "might not be false". False
means the condition is statically always false. -/
def mightNotBeFalse : Value → Bool
  | .absVar _ tk => tk != TruthKnowledge.alwaysFalse
  | .absCond _ _ _ _ _ => true
  | v => toBooleanConcrete v

end Value

/-- Modelled from the spec: `AbstractValue.createFromConditionalOp` constructs
a fresh abstract value with semantics "joinCondition ? v1 : v2"; either operand
may be absent (`undefined` in the source). -/
def createFromConditionalOp (cond : Value) (v1 v2 : Option Value) : Value :=
  Value.absCond cond v1.isSome (v1.getD Value.undef) v2.isSome (v2.getD Value.undef)

/-- Modelled from the spec: `Value.throwIfNotConcrete`. All call sites in the
embedded code are guarded by non-abstract checks, so the throwing branch is
unreachable and the function acts as the identity there. -/
def throwIfNotConcrete (v : Value) : Value := v

/-- Modelled from the spec: strict-equality comparison of concrete values
("strictly-equal once dereferenced to concrete form"). Object values compare
by identity (their id); other concrete values structurally. Abstract values
never reach this comparison (the caller excludes them first). -/
def StrictEqualityComparison (v1 v2 : Value) : Bool :=
  match v1, v2 with
  | .empty, .empty => true
  | .undef, .undef => true
  | .nullV, .nullV => true
  | .bool b1, .bool b2 => b1 == b2
  | .num n1, .num n2 => n1 == n2
  | .str s1, .str s2 => s1 == s2
  | .obj i1, .obj i2 => i1 == i2
  | _, _ => false

/-- Modelled from the spec: the ambient realm - only the active path
conditions are consumed by the join engine (generator construction), plus the
intrinsics `empty` and `undefined`, which are the fixed constructors
`Value.empty` and `Value.undef`. -/
structure Realm where
  pathConditions : List Value
  deriving Repr

/-- A mutable variable slot, identified by an id (standing for reference
identity), carrying the canonical pre-fork leaked flag and value that the join
reads when one side has no entry for the binding. -/
structure Binding where
  id : Nat
  hasLeaked : Bool
  value : Option Value
  deriving DecidableEq, Repr

/-- Per-branch snapshot of a binding: its leaked flag and value in this
branch, plus the leaked flag/value that held before entering the branch. -/
structure BindingEntry where
  hasLeaked : Bool
  value : Option Value
  previousHasLeaked : Option Bool
  previousValue : Option Value
  deriving DecidableEq, Repr

/-- Modelled from the spec: one entry of a generator's append-only log of
residual operations - a binding assignment, an opaque residual operation
(identified by a tag), or the conditional residual block recorded when two
generators are joined under a condition. `G` is instantiated with `Generator`. -/
inductive GenEntryF (G : Type) where
  | bindingAssignment (bindingId : Nat) (v : Value)
  | residualOp (tag : Nat)
  | joinedBlock (cond : Value) (g1 g2 : G)

/-- Modelled from the spec: a generator is an append-only log of residual
operations plus the path conditions active at its creation, and a label naming
its construction site. -/
inductive Generator where
  | mk (label : String) (pathConditions : List Value) (entries : List (GenEntryF Generator))

abbrev GenEntry := GenEntryF Generator

namespace Generator

def label : Generator → String
  | .mk l _ _ => l

def pathConditions : Generator → List Value
  | .mk _ p _ => p

def entries : Generator → List GenEntry
  | .mk _ _ e => e

/-- Modelled from the spec: the generator emptiness check (`empty()`). -/
def isEmptyGen (g : Generator) : Bool := g.entries.isEmpty

/-- Modelled from the spec: `appendGenerator` appends the other generator's
entries after this generator's, preserving order. -/
def appendGenerator (g other : Generator) : Generator :=
  Generator.mk g.label g.pathConditions (g.entries ++ other.entries)

/-- Modelled from the spec: `emitBindingAssignment` records an explicit
binding-assignment entry at the end of the log. -/
def emitBindingAssignment (g : Generator) (b : Binding) (v : Value) : Generator :=
  Generator.mk g.label g.pathConditions (g.entries ++ [GenEntryF.bindingAssignment b.id v])

/-- Modelled from the spec: the generator method `joinGenerators` records one
conditional-residual-block entry holding the two joined generators. -/
def recordJoinedBlock (g : Generator) (cond : Value) (g1 g2 : Generator) : Generator :=
  Generator.mk g.label g.pathConditions (g.entries ++ [GenEntryF.joinedBlock cond g1 g2])

end Generator

/-- A key-value pair of a composite (map-like) descriptor value; both
components are optional, matching the source's `{ $Key: void | Value, $Value:
void | Value }`. -/
structure KVPair where
  key : Option Value
  val : Option Value
  deriving DecidableEq, Repr

/-- The source's `void | Value | Array<Value> | Array<{$Key,$Value}>` union
(minus the `void` case, which is `Option` at use sites): a plain value, an
array of values, or an array of key-value entries. -/
inductive ValueOrArray where
  | val (v : Value)
  | arrV (a : List Value)
  | arrKV (a : List KVPair)
  deriving DecidableEq, Repr

/-- A property descriptor: optional attributes, an optional (possibly
composite) value, optional accessors (modelled by the ids of the function
objects), and the conditional-descriptor fields `joinCondition`,
`descriptor1`, `descriptor2`. -/
inductive Descriptor where
  | mk (writable enumerable configurable : Option Bool)
      (value : Option ValueOrArray)
      (get set : Option Nat)
      (joinCondition : Option Value)
      (descriptor1 descriptor2 : Option Descriptor)

namespace Descriptor

def writable : Descriptor → Option Bool
  | .mk w _ _ _ _ _ _ _ _ => w

def enumerable : Descriptor → Option Bool
  | .mk _ e _ _ _ _ _ _ _ => e

def configurable : Descriptor → Option Bool
  | .mk _ _ c _ _ _ _ _ _ => c

def value : Descriptor → Option ValueOrArray
  | .mk _ _ _ v _ _ _ _ _ => v

def get : Descriptor → Option Nat
  | .mk _ _ _ _ g _ _ _ _ => g

def set : Descriptor → Option Nat
  | .mk _ _ _ _ _ s _ _ _ => s

def joinCondition : Descriptor → Option Value
  | .mk _ _ _ _ _ _ j _ _ => j

def descriptor1 : Descriptor → Option Descriptor
  | .mk _ _ _ _ _ _ _ d _ => d

def descriptor2 : Descriptor → Option Descriptor
  | .mk _ _ _ _ _ _ _ _ d => d

def withValue (d : Descriptor) (v : Option ValueOrArray) : Descriptor :=
  Descriptor.mk d.writable d.enumerable d.configurable v d.get d.set d.joinCondition
    d.descriptor1 d.descriptor2

def withDescriptor1 (d : Descriptor) (d1 : Option Descriptor) : Descriptor :=
  Descriptor.mk d.writable d.enumerable d.configurable d.value d.get d.set d.joinCondition
    d1 d.descriptor2

def withDescriptor2 (d : Descriptor) (d2 : Option Descriptor) : Descriptor :=
  Descriptor.mk d.writable d.enumerable d.configurable d.value d.get d.set d.joinCondition
    d.descriptor1 d2

end Descriptor

/-- Modelled from the spec: `cloneDescriptor` shallow-copies a descriptor (or
passes `undefined` through). In this pure embedding a shallow copy is the
descriptor itself; the source's subsequent in-place updates of the clone are
modelled by rebuilding functions such as `Descriptor.withValue`. -/
def cloneDescriptor : Option Descriptor → Option Descriptor
  | none => none
  | some d => some d

/-- Modelled from the spec: `IsDataDescriptor` - a descriptor is a data
descriptor when it carries a value or a writable attribute. -/
def IsDataDescriptor (d : Descriptor) : Bool :=
  d.value.isSome || d.writable.isSome

/-- Modelled from the spec: the descriptor-equality helper. Per the spec,
"equal data descriptors join their values", so equality compares the
attributes, the accessors, and value presence, leaving the values themselves
to be joined by the caller; conditional-descriptor fields must be absent on
both sides. -/
def equalDescriptors (d1 d2 : Descriptor) : Bool :=
  d1.writable == d2.writable && d1.enumerable == d2.enumerable
    && d1.configurable == d2.configurable && d1.get == d2.get && d1.set == d2.set
    && d1.value.isSome == d2.value.isSome
    && d1.joinCondition.isNone && d2.joinCondition.isNone
    && d1.descriptor1.isNone && d2.descriptor1.isNone
    && d1.descriptor2.isNone && d2.descriptor2.isNone

/-- An (object, key) heap slot. The `objectId`/`key` pair stands for the
reference identity of the source's `PropertyBinding` object; `descriptor` is
the canonical descriptor the slot had before the fork (`b.descriptor`). -/
structure PropertyBinding where
  objectId : Nat
  key : String
  descriptor : Option Descriptor

/-- Property-binding map keys compare by slot identity. -/
instance : BEq PropertyBinding :=
  ⟨fun a b => a.objectId == b.objectId && a.key == b.key⟩

mutual
/-- The completion hierarchy. Simple and abrupt completions carry the value
(and, when attached, the effects record that the source stores in the
completion's `effects` back-reference). The two composite variants store each
child together with that child's effects record, standing for the source's
`consequentEffects`/`alternateEffects` getters (`consequent.effects` /
`alternate.effects`); the cyclic `result.effects === effects` back-reference
itself is not representable in a tree and is maintained by construction. -/
inductive Completion where
  | simpleNormal (value : Value) (effects : OEffects)
  | breakCompletion (value : Value) (target : Option String) (effects : OEffects)
  | continueCompletion (value : Value) (target : Option String) (effects : OEffects)
  | returnCompletion (value : Value) (effects : OEffects)
  | throwCompletion (value : Value) (effects : OEffects)
  | possiblyNormal (value : Value) (joinCondition : Value)
      (consequent : Completion) (consequentEffects : Effects)
      (alternate : Completion) (alternateEffects : Effects)
      (savedPathConditions : List Value) (savedEffects : OEffects)
  | forkedAbrupt (joinCondition : Value)
      (consequent : Completion) (consequentEffects : Effects)
      (alternate : Completion) (alternateEffects : Effects)

/-- An optional effects record (a dedicated type rather than `Option`, so the
mutual recursion stays plain). -/
inductive OEffects where
  | noneE
  | someE (e : Effects)

/-- The source's `EvaluationResult`: a completion or a bare reference
(references are invalid at join points and reported as introspection
errors). -/
inductive EvalResult where
  | completion (c : Completion)
  | reference (id : Nat)

/-- The unit of branch outcome: termination result, residual generator, and
the three heap/environment deltas. -/
inductive Effects where
  | mk (result : EvalResult) (generator : Generator)
      (modifiedBindings : List (Binding × BindingEntry))
      (modifiedProperties : List (PropertyBinding × Option Descriptor))
      (createdObjects : List Nat)
end

abbrev Bindings := List (Binding × BindingEntry)
abbrev PropertyBindings := List (PropertyBinding × Option Descriptor)
abbrev CreatedObjects := List Nat

namespace Effects

def result : Effects → EvalResult
  | .mk r _ _ _ _ => r

def generator : Effects → Generator
  | .mk _ g _ _ _ => g

def modifiedBindings : Effects → Bindings
  | .mk _ _ b _ _ => b

def modifiedProperties : Effects → PropertyBindings
  | .mk _ _ _ p _ => p

def createdObjects : Effects → CreatedObjects
  | .mk _ _ _ _ c => c

def withGenerator (e : Effects) (g : Generator) : Effects :=
  Effects.mk e.result g e.modifiedBindings e.modifiedProperties e.createdObjects

def withResult (e : Effects) (r : EvalResult) : Effects :=
  Effects.mk r e.generator e.modifiedBindings e.modifiedProperties e.createdObjects

end Effects

namespace Completion

/-- Is this an `AbruptCompletion` (the four jump kinds, or a fully-abrupt
fork, which extends `AbruptCompletion` in the source's class hierarchy)? -/
def isAbrupt : Completion → Bool
  | .breakCompletion _ _ _ => true
  | .continueCompletion _ _ _ => true
  | .returnCompletion _ _ => true
  | .throwCompletion _ _ => true
  | .forkedAbrupt _ _ _ _ _ => true
  | _ => false

/-- Is this a `NormalCompletion` (simple, or a fork that still has an open
normal component)? -/
def isNormalCompletion : Completion → Bool
  | .simpleNormal _ _ => true
  | .possiblyNormal _ _ _ _ _ _ _ _ => true
  | _ => false

def isSimpleNormal : Completion → Bool
  | .simpleNormal _ _ => true
  | _ => false

def isPossiblyNormal : Completion → Bool
  | .possiblyNormal _ _ _ _ _ _ _ _ => true
  | _ => false

/-- The completion's `value` field (for a fully-abrupt fork the source stores
the join condition in the base-class value slot). -/
def valueC : Completion → Value
  | .simpleNormal v _ => v
  | .breakCompletion v _ _ => v
  | .continueCompletion v _ _ => v
  | .returnCompletion v _ => v
  | .throwCompletion v _ => v
  | .possiblyNormal v _ _ _ _ _ _ _ => v
  | .forkedAbrupt c _ _ _ _ => c

/-- Assignment to the completion's `value` field (`c.value = v`). -/
def withValue : Completion → Value → Completion
  | .simpleNormal _ e, v => .simpleNormal v e
  | .breakCompletion _ t e, v => .breakCompletion v t e
  | .continueCompletion _ t e, v => .continueCompletion v t e
  | .returnCompletion _ e, v => .returnCompletion v e
  | .throwCompletion _ e, v => .throwCompletion v e
  | .possiblyNormal _ jc c ce a ae spc se, v => .possiblyNormal v jc c ce a ae spc se
  | .forkedAbrupt jc c ce a ae, _ => .forkedAbrupt jc c ce a ae

/-- Modelled from the spec: `PossiblyNormalCompletion.getNormalCompletion`
descends into the still-open side of the fork tree and returns its simple
normal leaf (preferring the alternate side, as the source does); `none` when
the tree has no such leaf (the source would fail an invariant). -/
def getNormalCompletion : Completion → Option Completion
  | .possiblyNormal _ _ cons _ alt _ _ _ =>
      if alt.isSimpleNormal then some alt
      else if cons.isSimpleNormal then some cons
      else if alt.isPossiblyNormal then getNormalCompletion alt
      else if cons.isPossiblyNormal then getNormalCompletion cons
      else none
  | c => if c.isSimpleNormal then some c else none

/-- The saved path conditions carried by a fork with an open normal side
(empty for other completions). -/
def savedPathConditionsOf : Completion → List Value
  | .possiblyNormal _ _ _ _ _ _ spc _ => spc
  | _ => []

/-- The saved effects carried by a fork with an open normal side (absent for
other completions). -/
def savedEffectsOf : Completion → OEffects
  | .possiblyNormal _ _ _ _ _ _ _ se => se
  | _ => .noneE

end Completion

namespace EvalResult

def isAbruptR : EvalResult → Bool
  | .completion c => c.isAbrupt
  | .reference _ => false

def isReference : EvalResult → Bool
  | .reference _ => true
  | _ => false

end EvalResult

/-- The two error classes of the engine: fatal internal errors (failed
`invariant` assertions) and reported introspection failures
(`AbstractValue.reportIntrospectionError` followed by a thrown `FatalError`). -/
inductive JoinErr where
  | invariantFailure
  | introspection
  deriving DecidableEq, Repr

/-- Modelled from the spec: `construct_empty_effects` - an effects record with
a simple normal completion of the `empty` sentinel, a fresh empty generator
under the current path conditions, and empty deltas. -/
def construct_empty_effects (realm : Realm) : Effects :=
  Effects.mk (.completion (.simpleNormal .empty .noneE))
    (Generator.mk "construct_empty_effects" realm.pathConditions []) [] [] []

/-- Lookup of an identity-keyed map (`Map.get`): the value at the first entry
whose key matches, or `none` when absent. -/
def jmLookup {K V : Type} [BEq K] (l : List (K × V)) (k : K) : Option V :=
  (l.find? (fun kv => kv.1 == k)).map (fun kv => kv.2)

/-- Membership test of an identity-keyed map (`Map.has`). -/
def jmHas {K V : Type} [BEq K] (l : List (K × V)) (k : K) : Bool :=
  l.any (fun kv => kv.1 == k)

/-- Monadic traversal of a map's entries in insertion order, rebuilding each
entry with the joined value (the `m1.forEach` loop body of `joinMaps`). -/
def mapEntriesM {m : Type → Type} [Monad m] {K V : Type} (f : K → V → m V) :
    List (K × V) → m (List (K × V))
  | [] => pure []
  | kv :: rest => do
      let v3 ← f kv.1 kv.2
      let rest3 ← mapEntriesM f rest
      pure ((kv.1, v3) :: rest3)

/-- Creates a single map that joins together maps `m1` and `m2` using the
given join operator. If an entry is present in one map but not the other, the
missing entry is treated as if it were there and its value were undefined
(`none`). Entries of `m1` are produced first in `m1`'s order, then the keys
unique to `m2` in `m2`'s order, matching the source's two `forEach` passes.
The join operator runs in a monad `m`, standing for the source closures'
implicit effects (captured-variable mutation in `joinBindings`, thrown
invariants in `joinPropertyBindings`). -/
def joinMaps {m : Type → Type} [Monad m] {K V : Type} [BEq K]
    (m1 m2 : List (K × V)) (join : K → Option V → Option V → m V) :
    m (List (K × V)) := do
  let part1 ← mapEntriesM (fun k v1 => join k (some v1) (jmLookup m2 k)) m1
  let part2 ← mapEntriesM (fun k v2 => join k none (some v2))
      (m2.filter (fun kv => !(jmHas m1 kv.1)))
  pure (part1 ++ part2)

def isArrayVO : Option ValueOrArray → Bool
  | some (.arrV _) => true
  | some (.arrKV _) => true
  | _ => false

def isValueVO : Option ValueOrArray → Bool
  | some (.val _) => true
  | _ => false

/-- The first element's kind, for `joinArrays`' dispatch
`let e = (v1 && v1[0]) || (v2 && v2[0]); e instanceof Value`:
`some true` when the argument is a non-empty array of values, `some false`
when a non-empty array of entries, `none` otherwise (no first element). -/
def headIsValueElem : Option ValueOrArray → Option Bool
  | some (.arrV (_ :: _)) => some true
  | some (.arrKV (_ :: _)) => some false
  | _ => none

/-- The source's unchecked cast of an array argument to `Array<Value>`; a
mismatched kind (impossible for the engine's inputs) behaves as undefined. -/
def asArrV : Option ValueOrArray → Option (List Value)
  | some (.arrV a) => some a
  | _ => none

/-- The source's unchecked cast of an array argument to an entry array. -/
def asArrKV : Option ValueOrArray → Option (List KVPair)
  | some (.arrKV a) => some a
  | _ => none

def lenOrZero {α : Type} : Option (List α) → Nat
  | none => 0
  | some a => a.length

def joinArraysOfValues (_realm : Realm) (a1 a2 : Option (List Value))
    (getAbstractValue : Option Value → Option Value → Value) : List Value :=
  (List.range (max (lenOrZero a1) (lenOrZero a2))).map (fun i =>
    getAbstractValue (a1.bind (fun l => l.get? i)) (a2.bind (fun l => l.get? i)))

def joinArrayOfsMapEntries (_realm : Realm) (a1 a2 : Option (List KVPair))
    (getAbstractValue : Option Value → Option Value → Value) : List KVPair :=
  (List.range (max (lenOrZero a1) (lenOrZero a2))).map (fun i =>
    let e1 := (a1.bind (fun l => l.get? i)).getD ⟨some .empty, some .empty⟩
    let e2 := (a2.bind (fun l => l.get? i)).getD ⟨some .empty, some .empty⟩
    if e1.key.isNone && e2.key.isNone then ⟨none, none⟩
    else ⟨some (getAbstractValue e1.key e2.key), some (getAbstractValue e1.val e2.val)⟩)

def joinArrays (realm : Realm) (v1 v2 : Option ValueOrArray)
    (getAbstractValue : Option Value → Option Value → Value) : ValueOrArray :=
  match (headIsValueElem v1).orElse (fun _ => headIsValueElem v2) with
  | some true => .arrV (joinArraysOfValues realm (asArrV v1) (asArrV v2) getAbstractValue)
  | _ => .arrKV (joinArrayOfsMapEntries realm (asArrKV v1) (asArrKV v2) getAbstractValue)

/-- If `v1` is known and defined and `v1 === v2` (as concrete values), return
`v1`; otherwise return `getAbstractValue v1 v2`. Arrays are joined
element-wise; a mixed value/array pair fails the source's invariants. -/
def joinValues (realm : Realm) (v1 v2 : Option ValueOrArray)
    (getAbstractValue : Option Value → Option Value → Value) :
    Except JoinErr ValueOrArray :=
  if isArrayVO v1 || isArrayVO v2 then
    if isValueVO v1 || isValueVO v2 then .error .invariantFailure
    else .ok (joinArrays realm v1 v2 getAbstractValue)
  else
    match v1, v2 with
    | some (.val x1), some (.val x2) =>
        if !x1.isAbstract && !x2.isAbstract
            && StrictEqualityComparison (throwIfNotConcrete x1) (throwIfNotConcrete x2) then
          .ok (.val x1)
        else
          .ok (.val (getAbstractValue (some x1) (some x2)))
    | some (.val x1), none => .ok (.val (getAbstractValue (some x1) none))
    | none, some (.val x2) => .ok (.val (getAbstractValue none (some x2)))
    | none, none => .ok (.val (getAbstractValue none none))
    | _, _ => .error .invariantFailure

/-- The unfolding of `joinValues` on two present, non-array values: the shared
value when both are non-abstract and strictly equal, else the abstraction. -/
def joinVal2 (a b : Value) (getAbstractValue : Option Value → Option Value → Value) : Value :=
  if !a.isAbstract && !b.isAbstract
      && StrictEqualityComparison (throwIfNotConcrete a) (throwIfNotConcrete b) then a
  else getAbstractValue (some a) (some b)

theorem joinValues_val_val (realm : Realm) (a b : Value)
    (gav : Option Value → Option Value → Value) :
    joinValues realm (some (.val a)) (some (.val b)) gav = .ok (.val (joinVal2 a b gav)) := by
  have h1 : joinValues realm (some (.val a)) (some (.val b)) gav =
      if !a.isAbstract && !b.isAbstract
          && StrictEqualityComparison (throwIfNotConcrete a) (throwIfNotConcrete b)
        then Except.ok (ValueOrArray.val a)
        else Except.ok (ValueOrArray.val (gav (some a) (some b))) := rfl
  rw [h1]
  unfold joinVal2
  split <;> rfl

/-- The file-level `joinGenerators`: a fresh "joined" generator under the
realm's current path conditions; unless both inputs are empty, one
conditional-residual-block entry is recorded. -/
def joinGenerators (realm : Realm) (joinCondition : Value)
    (generator1 generator2 : Generator) : Generator :=
  let result := Generator.mk "joined" realm.pathConditions []
  if !generator1.isEmptyGen || !generator2.isEmptyGen then
    result.recordJoinedBlock joinCondition generator1 generator2
  else result

/-- The mutable state captured by `joinBindings`' `join` closure: the two
branch generators (possibly rewritten to wrappers) and the rewritten flags. -/
structure BindState where
  g1 : Generator
  g2 : Generator
  rewritten1 : Bool
  rewritten2 : Bool

/-- `joinBindings`' `leak` helper: ensure the branch generator is replaced by
a fresh wrapping generator (never mutating the original in place), then append
an explicit binding-assignment entry for the branch's last value, unless that
value is undefined or the undefined intrinsic. -/
def leak (_realm : Realm) (b : Binding) (g : Generator) (v : Option Value)
    (rewritten : Bool) : Generator × Bool :=
  let gr :=
    if !rewritten then
      let h := Generator.mk "RewrittenToAppendBindingAssignments" g.pathConditions []
      let h := if !g.isEmptyGen then h.appendGenerator g else h
      (h, true)
    else (g, rewritten)
  match v with
  | some v => if v = Value.undef then gr else (gr.1.emitBindingAssignment b v, gr.2)
  | none => gr

/-- `joinBindings`' `join` closure, one binding at a time: compute each side's
leaked flag and value (falling back to the binding's canonical pre-fork state
when a side has no entry), patch the non-leaked side's generator when exactly
one side leaked, reset the joined value to undefined for leaked bindings, and
carry over the prior-history fields, failing an invariant when both sides
supply them and disagree. -/
def joinBindingsEntry (realm : Realm) (joinCondition : Value) (b : Binding)
    (b1 b2 : Option BindingEntry) : StateT BindState (Except JoinErr) BindingEntry := do
  let getAbstractValue := fun v1 v2 => createFromConditionalOp joinCondition v1 v2
  let l1 := match b1 with | none => b.hasLeaked | some e => e.hasLeaked
  let l2 := match b2 with | none => b.hasLeaked | some e => e.hasLeaked
  let v1 := match b1 with | none => b.value | some e => e.value
  let v2 := match b2 with | none => b.value | some e => e.value
  if !l1 && l2 then
    modify (fun st =>
      let gr := leak realm b st.g1 v1 st.rewritten1
      { st with g1 := gr.1, rewritten1 := gr.2 })
  else if l1 && !l2 then
    modify (fun st =>
      let gr := leak realm b st.g2 v2 st.rewritten2
      { st with g2 := gr.1, rewritten2 := gr.2 })
  let hasLeaked := l1 || l2
  let value ← (if hasLeaked then pure (none : Option Value) else
    match joinValues realm (v1.map ValueOrArray.val) (v2.map ValueOrArray.val) getAbstractValue with
    | .ok (.val v) => pure (some v)
    | _ => StateT.lift (.error JoinErr.invariantFailure))
  match b1, b2 with
  | some e1, some e2 =>
      if e1.previousHasLeaked = e2.previousHasLeaked ∧ e1.previousValue = e2.previousValue then
        pure ⟨hasLeaked, value, e1.previousHasLeaked, e1.previousValue⟩
      else
        StateT.lift (.error JoinErr.invariantFailure)
  | some e1, none => pure ⟨hasLeaked, value, e1.previousHasLeaked, e1.previousValue⟩
  | none, some e2 => pure ⟨hasLeaked, value, e2.previousHasLeaked, e2.previousValue⟩
  | none, none => pure ⟨hasLeaked, value, none, none⟩

/-- Union of the two branch binding maps with the leak invariant enforced;
returns the (possibly rewritten) branch generators and the joined map. -/
def joinBindings (realm : Realm) (joinCondition : Value)
    (g1 : Generator) (m1 : Bindings) (g2 : Generator) (m2 : Bindings) :
    Except JoinErr (Generator × Generator × Bindings) := do
  let r ← (joinMaps m1 m2 (joinBindingsEntry realm joinCondition)).run
      ⟨g1, g2, false, false⟩
  pure (r.2.g1, r.2.g2, r.1)

/-- The non-data conditional descriptor `{ joinCondition }` constructed by
`joinDescriptors` and its `clone_with_abstract_value` helper. -/
def bareConditionalDescriptor (joinCondition : Value) : Descriptor :=
  Descriptor.mk none none none none none none (some joinCondition) none none

/-- `joinDescriptors`' `clone_with_abstract_value`: for a non-data descriptor,
a bare conditional descriptor; for a data descriptor, a clone whose (possibly
composite) value is joined one-sidedly against the `empty` sentinel. `isFirst`
records which argument the source's `d === d1` identity test would find, i.e.
on which side of the conditional the descriptor's own value goes. -/
def clone_with_abstract_value (joinCondition : Value) (isFirst : Bool)
    (d : Descriptor) : Except JoinErr Descriptor :=
  let getAbstractValue := fun v1 v2 => createFromConditionalOp joinCondition v1 v2
  let oneSided := fun (v : Option Value) =>
    if isFirst then getAbstractValue v (some .empty) else getAbstractValue (some .empty) v
  if !(IsDataDescriptor d) then .ok (bareConditionalDescriptor joinCondition)
  else
    match cloneDescriptor (some d) with
    | none => .error .invariantFailure
    | some dc =>
      match dc.value with
      | some (.arrV a) =>
          if a.isEmpty then .error .invariantFailure
          else .ok (dc.withValue (some (.arrV (a.map (fun e => oneSided (some e))))))
      | some (.arrKV a) =>
          if a.isEmpty then .error .invariantFailure
          else .ok (dc.withValue (some (.arrKV (a.map (fun e =>
            ⟨some (oneSided e.key), some (oneSided e.val)⟩)))))
      | some (.val v) => .ok (dc.withValue (some (.val (oneSided (some v)))))
      | none => .ok (dc.withValue (some (.val (oneSided none))))

/-- Join two (possibly absent) descriptors: a descriptor present on one side
only is joined one-sidedly against `empty`; two present, equal data
descriptors join their values; any other pair becomes a conditional descriptor
carrying both originals and the join condition. -/
def joinDescriptors (realm : Realm) (joinCondition : Value)
    (d1 d2 : Option Descriptor) : Except JoinErr (Option Descriptor) :=
  let getAbstractValue := fun v1 v2 => createFromConditionalOp joinCondition v1 v2
  match d1, d2 with
  | none, none => .ok none
  | none, some dd2 => do
      let d3 ← clone_with_abstract_value joinCondition false dd2
      let d3 := if !(IsDataDescriptor dd2) then d3.withDescriptor2 (some dd2) else d3
      pure (some d3)
  | some dd1, none => do
      let d3 ← clone_with_abstract_value joinCondition true dd1
      let d3 := if !(IsDataDescriptor dd1) then d3.withDescriptor1 (some dd1) else d3
      pure (some d3)
  | some dd1, some dd2 =>
      if equalDescriptors dd1 dd2 && IsDataDescriptor dd1 then
        match cloneDescriptor (some dd1) with
        | none => .error .invariantFailure
        | some dc => do
            let jv ← joinValues realm dd1.value dd2.value getAbstractValue
            pure (some (dc.withValue (some jv)))
      else
        .ok (some ((bareConditionalDescriptor joinCondition).withDescriptor1
          d1 |>.withDescriptor2 d2))

/-- The second half of `joinPropertyBindings`' `join` closure: resolve side 2
when it has no recorded mutation (fresh object on side 1: take side 1's
descriptor verbatim; deletion marker in side 2's map: synthesize a clone of
the pre-fork descriptor with the `empty` value; otherwise the pre-fork
descriptor), then join the two descriptors. -/
def joinPropertyBindingsSide2 (realm : Realm) (joinCondition : Value)
    (m2 : PropertyBindings) (c1 : CreatedObjects) (b : PropertyBinding)
    (d1 d2 : Option Descriptor) : Except JoinErr (Option Descriptor) :=
  match d2 with
  | some _ => joinDescriptors realm joinCondition d1 d2
  | none =>
    if c1.contains b.objectId then .ok d1
    else
      let d2 :=
        if b.descriptor.isSome && jmHas m2 b then
          (cloneDescriptor b.descriptor).map (fun dc => dc.withValue (some (.val .empty)))
        else b.descriptor
      joinDescriptors realm joinCondition d1 d2

/-- `joinPropertyBindings`' `join` closure: resolve a side with no recorded
mutation (fresh object entirely on the other side / deleted on this side /
untouched on this side), then join the resulting descriptors. -/
def joinPropertyBindingsEntry (realm : Realm) (joinCondition : Value)
    (m1 m2 : PropertyBindings) (c1 c2 : CreatedObjects) (b : PropertyBinding)
    (d1 d2 : Option Descriptor) : Except JoinErr (Option Descriptor) :=
  match d1 with
  | some _ => joinPropertyBindingsSide2 realm joinCondition m2 c1 b d1 d2
  | none =>
    if c2.contains b.objectId then .ok d2
    else
      let d1 :=
        if b.descriptor.isSome && jmHas m1 b then
          (cloneDescriptor b.descriptor).map (fun dc => dc.withValue (some (.val .empty)))
        else b.descriptor
      joinPropertyBindingsSide2 realm joinCondition m2 c1 b d1 d2

/-- Union of the two branch property maps. The stored map values are
`Option Descriptor` (a present entry with no descriptor is a deletion
marker); the closure receives each side flattened, exactly as the source's
`Map.get` conflates an absent entry with a stored `undefined`. -/
def joinPropertyBindings (realm : Realm) (joinCondition : Value)
    (m1 m2 : PropertyBindings) (c1 c2 : CreatedObjects) :
    Except JoinErr PropertyBindings :=
  joinMaps m1 m2 (fun b d1 d2 =>
    joinPropertyBindingsEntry realm joinCondition m1 m2 c1 c2 b d1.join d2.join)

/-- The `getAbstractValue` closure of `joinNormalCompletions` and
`collapseResults`: substitute the undefined intrinsic (or the other side's
value) for the `empty` placeholder, otherwise build the conditional value. -/
def gavSubstEmpty (joinCondition : Value) : Option Value → Option Value → Value
  | some .empty, v2 => v2.getD .undef
  | v1, some .empty => v1.getD .undef
  | v1, v2 => createFromConditionalOp joinCondition v1 v2

/-- Join two normal completions into a fork with both sides still open: join
the two values (with `empty` substitution), assign the joined value into the
alternate completion in place, and build the possibly-normal fork. -/
def joinNormalCompletions (realm : Realm) (joinCondition : Value)
    (c : Completion) (ce : Effects) (a : Completion) (ae : Effects) :
    Except JoinErr Completion := do
  let rv ← joinValues realm (some (.val c.valueC)) (some (.val a.valueC))
      (gavSubstEmpty joinCondition)
  match rv with
  | .val v =>
      let a2 := a.withValue v
      pure (.possiblyNormal v joinCondition c ce a2 (ae.withResult (.completion a2)) [] .noneE)
  | _ => .error .invariantFailure

/-- Case analysis on the pair of per-branch results: both simple-normal joins
the values; both abrupt forks them; both normal (with a fork involved) joins
via `joinNormalCompletions`; one abrupt and one normal produces a
possibly-normal fork preserving the normal side's saved effects and path
conditions; a bare reference is a reported introspection error. -/
def joinOrForkResults (realm : Realm) (joinCondition : Value)
    (result1 result2 : EvalResult) (e1 e2 : Effects) : Except JoinErr Completion :=
  let getAbstractValue := fun v1 v2 => createFromConditionalOp joinCondition v1 v2
  match result1, result2 with
  | .reference _, _ => .error .introspection
  | _, .reference _ => .error .introspection
  | .completion c1, .completion c2 =>
    if c1.isSimpleNormal && c2.isSimpleNormal then do
      let val ← joinValues realm (some (.val c1.valueC)) (some (.val c2.valueC))
          getAbstractValue
      match val with
      | .val v => pure (.simpleNormal v .noneE)
      | _ => .error .invariantFailure
    else if c1.isAbrupt && c2.isAbrupt then
      .ok (.forkedAbrupt joinCondition c1 e1 c2 e2)
    else if c1.isNormalCompletion && c2.isNormalCompletion then
      joinNormalCompletions realm joinCondition c1 e1 c2 e2
    else if c1.isAbrupt then
      let leaf := if c2.isPossiblyNormal then c2.getNormalCompletion else some c2
      match leaf with
      | some (.simpleNormal v _) =>
          .ok (.possiblyNormal v joinCondition c1 e1 c2 e2
            c2.savedPathConditionsOf c2.savedEffectsOf)
      | _ => .error .invariantFailure
    else if c2.isAbrupt then
      let leaf := if c1.isPossiblyNormal then c1.getNormalCompletion else some c1
      match leaf with
      | some (.simpleNormal v _) =>
          .ok (.possiblyNormal v joinCondition c1 e1 c2 e2
            c1.savedPathConditionsOf c1.savedEffectsOf)
      | _ => .error .invariantFailure
    else .error .invariantFailure

/-- Collapse two results of a fork that jump the same way into one completion:
same-target breaks and continues, returns, throws, and simple normals are
matched in the source's `instanceof` order (the sequential chain is collapsed
into one match here); everything else is a reported introspection error. -/
def collapseResults (realm : Realm) (joinCondition : Value)
    (precedingEffects : Effects) (result1 result2 : EvalResult) :
    Except JoinErr Completion :=
  let getAbstractValue := gavSubstEmpty joinCondition
  match result1, result2 with
  | .completion (.breakCompletion v1 t1 _), .completion (.breakCompletion v2 t2 _) =>
      if t1 = t2 then do
        let val ← joinValues realm (some (.val v1)) (some (.val v2)) getAbstractValue
        match val with
        | .val v => pure (.breakCompletion v t1 (.someE precedingEffects))
        | _ => .error .invariantFailure
      else .error .introspection
  | .completion (.continueCompletion _ t1 _), .completion (.continueCompletion _ t2 _) =>
      if t1 = t2 then
        .ok (.continueCompletion .empty t1 (.someE precedingEffects))
      else .error .introspection
  | .completion (.returnCompletion v1 _), .completion (.returnCompletion v2 _) => do
      let val ← joinValues realm (some (.val v1)) (some (.val v2)) getAbstractValue
      match val with
      | .val v => pure (.returnCompletion v (.someE precedingEffects))
      | _ => .error .invariantFailure
  | .completion (.throwCompletion v1 _), .completion (.throwCompletion v2 _) => do
      let val ← joinValues realm (some (.val v1)) (some (.val v2))
          (fun a b => createFromConditionalOp joinCondition a b)
      match val with
      | .val v => pure (.throwCompletion v (.someE precedingEffects))
      | _ => .error .invariantFailure
  | .completion (.simpleNormal v1 _), .completion (.simpleNormal v2 _) =>
      .ok (.simpleNormal (getAbstractValue (some v1) (some v2)) (.someE precedingEffects))
  | _, _ => .error .introspection

/-- Set union of created-object sets, preserving first-insertion order. -/
def listSetUnion (a b : List Nat) : List Nat :=
  (a ++ b).foldl (fun acc o => if acc.contains o then acc else acc ++ [o]) []

/-- Entry point for joining two full branch effects under a condition. The
two short-circuits return a branch's effects unchanged. Otherwise the two
results are joined; when exactly one side is abrupt, the joined result is a
possibly-normal fork and the returned effects carry the normal side's
generator, bindings, properties and created objects, while the normal side's
effects record inside the fork tree has its generator reset to an empty one
(the source does this by assigning `construct_empty_effects`' generator into
the already-stored effects object; here the stored tree is rebuilt in that
post-mutation state). When no side (or both sides) is abrupt, bindings,
properties, created objects and generators are joined. -/
def joinForkOrChoose (realm : Realm) (joinCondition : Value) (e1 e2 : Effects) :
    Except JoinErr Effects :=
  if !joinCondition.mightNotBeTrue then .ok e1
  else if !joinCondition.mightNotBeFalse then .ok e2
  else if !joinCondition.isAbstract then .error .invariantFailure
  else do
    let result ← joinOrForkResults realm joinCondition e1.result e2.result e1 e2
    let emptyEffects := construct_empty_effects realm
    if e1.result.isAbruptR && !e2.result.isAbruptR then
      match result with
      | .possiblyNormal v jc cons ce alt ae spc se =>
          pure (Effects.mk
            (.completion (.possiblyNormal v jc cons ce alt
              (ae.withGenerator emptyEffects.generator) spc se))
            e2.generator e2.modifiedBindings e2.modifiedProperties e2.createdObjects)
      | _ => .error .invariantFailure
    else if !e1.result.isAbruptR && e2.result.isAbruptR then
      match result with
      | .possiblyNormal v jc cons ce alt ae spc se =>
          pure (Effects.mk
            (.completion (.possiblyNormal v jc cons
              (ce.withGenerator emptyEffects.generator) alt ae spc se))
            e1.generator e1.modifiedBindings e1.modifiedProperties e1.createdObjects)
      | _ => .error .invariantFailure
    else do
      let gb ← joinBindings realm joinCondition e1.generator e1.modifiedBindings
          e2.generator e2.modifiedBindings
      let properties ← joinPropertyBindings realm joinCondition
          e1.modifiedProperties e2.modifiedProperties e1.createdObjects e2.createdObjects
      let createdObjects := listSetUnion e1.createdObjects e2.createdObjects
      let generator := joinGenerators realm joinCondition gb.1 gb.2.1
      pure (Effects.mk (.completion result) generator gb.2.2 properties createdObjects)

/-- A shape descriptor: a link to another named shape in the universe, or one
of the non-link kinds (object with named properties, array with an element
shape, scalar, enum). Each carries its ECMAScript type name; a property is a
shape together with its optional flag. -/
inductive ShapeDescriptor where
  | linkD (jsType : String) (shapeName : String)
  | objectD (jsType : String) (properties : List (String × Option (ShapeDescriptor × Bool)))
  | arrayD (jsType : String) (elementShape : Option (ShapeDescriptor × Bool))
  | scalarD (jsType : String)
  | enumD (jsType : String)

/-- A shape universe: named shape descriptors. -/
abbrev ShapeUniverse := List (String × ShapeDescriptor)

def lookupShape (u : ShapeUniverse) (name : String) : Option ShapeDescriptor :=
  (u.find? (fun kv => kv.1 == name)).map (fun kv => kv.2)

def isLinkShape : Option ShapeDescriptor → Bool
  | some (.linkD _ _) => true
  | _ => false

/-- The wrapped result of link resolution: the resolved non-link descriptor
together with the parent context and universe (`new ShapeInformation(...)`). -/
structure ShapeInformationW where
  descriptor : ShapeDescriptor
  parentDescriptor : Option ShapeDescriptor
  parentKey : Option String
  shapeUniverse : ShapeUniverse

/-- Outcome of running the resolution loop with a fuel bound: either the fuel
ran out while the chain was still on a link (the loop has not terminated
within that many iterations), or the loop finished with its result. -/
inductive ResolveOutcome where
  | outOfFuel
  | done (r : Option ShapeInformationW)

/-- `ShapeInformation._resolveLinksAndWrap`, with an explicit fuel bound on
the source's unbounded `while (descriptor && descriptor.kind === "link")`
loop: follow `universe[descriptor.shapeName]` while the descriptor is a link,
then wrap a resolved descriptor (or return `undefined` for a missing one).
`outOfFuel` marks that the loop is still running after `fuel` iterations; the
loop terminates if and only if some fuel suffices. -/
def resolveLinksAndWrap (u : ShapeUniverse) (parentDescriptor : Option ShapeDescriptor)
    (parentKey : Option String) : Nat → Option ShapeDescriptor → ResolveOutcome
  | 0, d => if isLinkShape d then .outOfFuel else
      .done (d.map (fun dd => ⟨dd, parentDescriptor, parentKey, u⟩))
  | fuel + 1, d =>
    match d with
    | some (.linkD _ shapeName) =>
        resolveLinksAndWrap u parentDescriptor parentKey fuel (lookupShape u shapeName)
    | _ => .done (d.map (fun dd => ⟨dd, parentDescriptor, parentKey, u⟩))

/-- One step of the link chain followed by the resolution loop: a link
descriptor steps to the universe entry it names; anything else is absorbing. -/
def linkStep (u : ShapeUniverse) : Option ShapeDescriptor → Option ShapeDescriptor
  | some (.linkD _ shapeName) => lookupShape u shapeName
  | d => d

/-- The link chain after `n` steps. -/
def linkChain (u : ShapeUniverse) (d : Option ShapeDescriptor) : Nat → Option ShapeDescriptor
  | 0 => d
  | n + 1 => linkStep u (linkChain u d n)

/-- `ShapeInformation.createForArgument`, with the same fuel bound. -/
def createForArgument (u : ShapeUniverse) (argsMap : List (String × String))
    (argname : String) (fuel : Nat) : ResolveOutcome :=
  resolveLinksAndWrap u none none fuel
    ((jmLookup argsMap argname).bind (fun shapeName => lookupShape u shapeName))

/-! ## Shared lemmas -/

theorem mightNotBeFalse_false_mightNotBeTrue (c : Value)
    (h : c.mightNotBeFalse = false) : c.mightNotBeTrue = true := by
  cases c <;> simp_all [Value.mightNotBeFalse, Value.mightNotBeTrue, Value.toBooleanConcrete]

theorem twoSided_isAbstract (c : Value) (h1 : c.mightNotBeTrue = true)
    (h2 : c.mightNotBeFalse = true) : c.isAbstract = true := by
  cases c <;> simp_all [Value.mightNotBeTrue, Value.mightNotBeFalse,
    Value.toBooleanConcrete, Value.isAbstract]

theorem strictEq_self_concrete (v : Value) (h : v.isAbstract = false) :
    StrictEqualityComparison v v = true := by
  cases v <;> simp_all [StrictEqualityComparison, Value.isAbstract]

theorem strictEq_empty_right (w : Value) (h : w ≠ Value.empty) :
    StrictEqualityComparison w Value.empty = false := by
  cases w <;> simp_all [StrictEqualityComparison]

/-- The value `joinValues` produces from two optional plain values. -/
def joinOptVal2 (v1 v2 : Option Value)
    (getAbstractValue : Option Value → Option Value → Value) : Value :=
  match v1, v2 with
  | some a, some b => joinVal2 a b getAbstractValue
  | some a, none => getAbstractValue (some a) none
  | none, some b => getAbstractValue none (some b)
  | none, none => getAbstractValue none none

theorem joinValues_opt (realm : Realm) (v1 v2 : Option Value)
    (gav : Option Value → Option Value → Value) :
    joinValues realm (v1.map ValueOrArray.val) (v2.map ValueOrArray.val) gav =
      .ok (.val (joinOptVal2 v1 v2 gav)) := by
  cases v1 <;> cases v2 <;> simp only [Option.map, joinOptVal2]
  · rfl
  · rfl
  · rfl
  · exact joinValues_val_val realm _ _ gav

def jmKeys {K V : Type} (l : List (K × V)) : List K := l.map Prod.fst

theorem jmLookup_append {K V : Type} [BEq K] (l1 l2 : List (K × V)) (k : K) :
    jmLookup (l1 ++ l2) k =
      (match jmLookup l1 k with
        | some v => some v
        | none => jmLookup l2 k) := by
  induction l1 with
  | nil => simp [jmLookup]
  | cons kv rest ih =>
      by_cases h : (kv.1 == k) = true
      · simp [jmLookup, List.find?, h]
      · simp only [Bool.not_eq_true] at h
        simp only [jmLookup, List.cons_append, List.find?, h] at ih ⊢
        exact ih

theorem jmHas_eq_isSome {K V : Type} [BEq K] (l : List (K × V)) (k : K) :
    jmHas l k = (jmLookup l k).isSome := by
  induction l with
  | nil => simp [jmHas, jmLookup]
  | cons kv rest ih =>
      by_cases h : (kv.1 == k) = true
      · simp [jmHas, jmLookup, List.find?, h]
      · simp only [Bool.not_eq_true] at h
        simp only [jmHas, jmLookup, List.any, List.find?, h, Bool.false_or] at ih ⊢
        exact ih

theorem jmLookup_mapWith {K V : Type} [BEq K] [LawfulBEq K] (g : K → V → V)
    (l : List (K × V)) (k : K) :
    jmLookup (l.map (fun kv => (kv.1, g kv.1 kv.2))) k = (jmLookup l k).map (g k) := by
  induction l with
  | nil => simp [jmLookup]
  | cons kv rest ih =>
      by_cases h : (kv.1 == k) = true
      · have hk : kv.1 = k := eq_of_beq h
        simp [jmLookup, List.find?, h, hk]
      · simp only [Bool.not_eq_true] at h
        simp only [jmLookup, List.map, List.find?, h] at ih ⊢
        exact ih

theorem jmKeys_mapWith {K V : Type} (g : K → V → V) (l : List (K × V)) :
    jmKeys (l.map (fun kv => (kv.1, g kv.1 kv.2))) = jmKeys l := by
  induction l with
  | nil => rfl
  | cons kv rest ih => simp only [jmKeys, List.map] at ih ⊢; rw [ih]

theorem jmLookup_filter_not_has {K V W : Type} [BEq K] [LawfulBEq K]
    (m1 : List (K × W)) (m2 : List (K × V)) (k : K) (h : jmHas m1 k = false) :
    jmLookup (m2.filter (fun kv => !(jmHas m1 kv.1))) k = jmLookup m2 k := by
  induction m2 with
  | nil => rfl
  | cons kv rest ih =>
      by_cases hk : (kv.1 == k) = true
      · have hkk : kv.1 = k := eq_of_beq hk
        rw [List.filter_cons]
        rw [hkk, h]
        simp [jmLookup, List.find?, hk, hkk]
      · simp only [Bool.not_eq_true] at hk
        rw [List.filter_cons]
        by_cases hq : (!(jmHas m1 kv.1)) = true
        · simp only [hq, if_pos]
          simp only [jmLookup, List.find?, hk] at ih ⊢
          exact ih
        · simp only [Bool.not_eq_true'] at hq
          simp only [hq]
          simp only [jmLookup, List.find?, hk] at ih ⊢
          simp only [Bool.not_true, if_neg]
          exact ih

theorem mapEntriesM_id {K V : Type} (g : K → V → V) (l : List (K × V)) :
    mapEntriesM (m := Id) g l = l.map (fun kv => (kv.1, g kv.1 kv.2)) := by
  induction l with
  | nil => rfl
  | cons kv rest ih =>
      show (kv.1, g kv.1 kv.2) :: mapEntriesM (m := Id) g rest = _
      rw [ih]
      rfl

theorem joinMaps_id_eq {K V : Type} [BEq K] (m1 m2 : List (K × V))
    (f : K → Option V → Option V → V) :
    joinMaps (m := Id) m1 m2 f =
      m1.map (fun kv => (kv.1, f kv.1 (some kv.2) (jmLookup m2 kv.1)))
        ++ (m2.filter (fun kv => !(jmHas m1 kv.1))).map
            (fun kv => (kv.1, f kv.1 none (some kv.2))) := by
  have h : joinMaps (m := Id) m1 m2 f =
      List.append
        (mapEntriesM (m := Id) (fun k v1 => f k (some v1) (jmLookup m2 k)) m1)
        (mapEntriesM (m := Id) (fun k v2 => f k none (some v2))
          (m2.filter (fun kv => !(jmHas m1 kv.1)))) := rfl
  rw [h, mapEntriesM_id, mapEntriesM_id]
  rfl

theorem joinMaps_single {m : Type → Type} [Monad m] [LawfulMonad m] {K V : Type} [BEq K]
    (k : K) (hk : (k == k) = true) (v1 v2 : V) (join : K → Option V → Option V → m V) :
    joinMaps [(k, v1)] [(k, v2)] join = (do
      let v ← join k (some v1) (some v2)
      pure [(k, v)]) := by
  simp [joinMaps, mapEntriesM, jmLookup, jmHas, List.find?, hk]

/-! ## Sample concrete inputs, used by witnesses and counterexamples -/

def realm0 : Realm := ⟨[]⟩

/-- A genuinely two-sided abstract join condition. -/
def condU : Value := .absVar 0 .unknown

def genA : Generator := .mk "A" [] [.residualOp 7]

def genB : Generator := .mk "B" [] [.residualOp 8]

/-- A branch that terminated abruptly (throwing `1`), with a non-empty
residual generator. -/
def effA : Effects := .mk (.completion (.throwCompletion (.num 1) .noneE)) genA [] [] []

/-- A branch that fell through normally with value `2`, with a non-empty
residual generator. -/
def effB : Effects := .mk (.completion (.simpleNormal (.num 2) .noneE)) genB [] [] []

/-! ## C1 -/

/-- C1: if the join condition cannot be false (`mightNotBeTrue()` is false),
`joinForkOrChoose` returns `e1` itself unchanged, with no abstraction
introduced; symmetrically, if the condition cannot be true
(`mightNotBeFalse()` is false), it returns `e2` itself unchanged. -/
theorem claim1_joinForkOrChoose_short_circuit (realm : Realm) (cond : Value)
    (e1 e2 : Effects) :
    (cond.mightNotBeTrue = false → joinForkOrChoose realm cond e1 e2 = .ok e1) ∧
    (cond.mightNotBeFalse = false → joinForkOrChoose realm cond e1 e2 = .ok e2) := by
  constructor
  · intro h
    simp [joinForkOrChoose, h]
  · intro h
    have h1 := mightNotBeFalse_false_mightNotBeTrue cond h
    simp [joinForkOrChoose, h, h1]

/-- Witness for C1 at concrete always-true and always-false conditions. -/
theorem claim1_joinForkOrChoose_short_circuit_witness :
    Value.mightNotBeTrue (.bool true) = false ∧
    joinForkOrChoose realm0 (.bool true) effA effB = .ok effA ∧
    Value.mightNotBeFalse (.bool false) = false ∧
    joinForkOrChoose realm0 (.bool false) effA effB = .ok effB :=
  ⟨rfl, (claim1_joinForkOrChoose_short_circuit realm0 (.bool true) effA effB).1 rfl,
    rfl, (claim1_joinForkOrChoose_short_circuit realm0 (.bool false) effA effB).2 rfl⟩

/-! ## C6 -/

/-- C6: for every concrete, non-abstract value `v`, `joinValues realm v v f`
returns `v` itself. The abstraction function is universally quantified, so the
result does not depend on it - `f` is never invoked on this path (the
strict-equality branch returns `v1` before `getAbstractValue` is consulted).
The strict-equality helper is external to the repository slice and is
modelled from the spec. -/
theorem claim6_joinValues_idempotent (realm : Realm) (v : Value)
    (h : v.isAbstract = false) (gav : Option Value → Option Value → Value) :
    joinValues realm (some (.val v)) (some (.val v)) gav = .ok (.val v) := by
  rw [joinValues_val_val]
  simp [joinVal2, throwIfNotConcrete, h, strictEq_self_concrete v h]

/-- Witness for C6 at `v = 5` and a constant abstraction function. -/
theorem claim6_joinValues_idempotent_witness :
    Value.isAbstract (.num 5) = false ∧
    joinValues realm0 (some (.val (.num 5))) (some (.val (.num 5)))
      (fun _ _ => Value.empty) = .ok (.val (.num 5)) :=
  ⟨rfl, claim6_joinValues_idempotent realm0 (.num 5) rfl (fun _ _ => Value.empty)⟩

/-! ## C9 -/

/-- C9: two continue completions with the same target collapse to a continue
completion whose value is the `empty` sentinel; both carried values are
discarded (the result is independent of `v1` and `v2`, so `joinValues` is
never consulted, unlike the break, return and throw cases). -/
theorem claim9_collapseResults_continue_discards_values (realm : Realm) (cond : Value)
    (pe : Effects) (v1 v2 : Value) (t : Option String) (x1 x2 : OEffects) :
    collapseResults realm cond pe (.completion (.continueCompletion v1 t x1))
      (.completion (.continueCompletion v2 t x2)) =
      .ok (.continueCompletion .empty t (.someE pe)) := by
  simp [collapseResults]

/-! ## C10 -/

theorem linkChain_succ_front (u : ShapeUniverse) (d : Option ShapeDescriptor) (n : Nat) :
    linkChain u d (n + 1) = linkChain u (linkStep u d) n := by
  induction n with
  | zero => rfl
  | succ n ih =>
      show linkStep u (linkChain u d (n + 1)) = linkStep u (linkChain u (linkStep u d) n)
      rw [ih]

theorem resolve_ne_out_of_nonlink (u : ShapeUniverse) (pd : Option ShapeDescriptor)
    (pk : Option String) (n : Nat) :
    ∀ d, isLinkShape (linkChain u d n) = false →
      resolveLinksAndWrap u pd pk n d ≠ .outOfFuel := by
  induction n with
  | zero =>
      intro d h
      simp only [resolveLinksAndWrap]
      rw [show linkChain u d 0 = d from rfl] at h
      rw [h]
      simp
  | succ n ih =>
      intro d h
      match d with
      | none => simp [resolveLinksAndWrap]
      | some (.linkD jt s) =>
          rw [linkChain_succ_front] at h
          have := ih (lookupShape u s) (by
            simpa [linkStep] using h)
          simpa [resolveLinksAndWrap] using this
      | some (.objectD jt ps) => simp [resolveLinksAndWrap]
      | some (.arrayD jt es) => simp [resolveLinksAndWrap]
      | some (.scalarD jt) => simp [resolveLinksAndWrap]
      | some (.enumD jt) => simp [resolveLinksAndWrap]

theorem nonlink_of_resolve_ne_out (u : ShapeUniverse) (pd : Option ShapeDescriptor)
    (pk : Option String) (n : Nat) :
    ∀ d, resolveLinksAndWrap u pd pk n d ≠ .outOfFuel →
      ∃ m, isLinkShape (linkChain u d m) = false := by
  induction n with
  | zero =>
      intro d h
      refine ⟨0, ?_⟩
      by_cases hl : isLinkShape d = true
      · simp [resolveLinksAndWrap, hl] at h
      · simpa using hl
  | succ n ih =>
      intro d h
      match d with
      | none => exact ⟨0, rfl⟩
      | some (.linkD jt s) =>
          have h2 : resolveLinksAndWrap u pd pk n (lookupShape u s) ≠ .outOfFuel := by
            simpa [resolveLinksAndWrap] using h
          obtain ⟨m, hm⟩ := ih (lookupShape u s) h2
          refine ⟨m + 1, ?_⟩
          rw [linkChain_succ_front]
          simpa [linkStep] using hm
      | some (.objectD jt ps) => exact ⟨0, rfl⟩
      | some (.arrayD jt es) => exact ⟨0, rfl⟩
      | some (.scalarD jt) => exact ⟨0, rfl⟩
      | some (.enumD jt) => exact ⟨0, rfl⟩

/-- A universe with a self-referential link: shape "a" is a link whose
`shapeName` resolves back to itself. -/
def cycShape : ShapeDescriptor := .linkD "object" "a"

def cycUniverse : ShapeUniverse := [("a", cycShape)]

/-- C10: the resolution loop of `_resolveLinksAndWrap` terminates exactly when
the chain of link descriptors reachable through the universe is finite: some
fuel bound completes the loop if and only if the link chain reaches a non-link
(or missing) descriptor after finitely many steps. For the self-referential
link universe, no fuel ever suffices - the loop never terminates. -/
theorem claim10_resolveLinksAndWrap_termination :
    (∀ (u : ShapeUniverse) (pd : Option ShapeDescriptor) (pk : Option String)
        (d : Option ShapeDescriptor),
      (∃ n, resolveLinksAndWrap u pd pk n d ≠ .outOfFuel) ↔
        (∃ m, isLinkShape (linkChain u d m) = false)) ∧
    (∀ n, resolveLinksAndWrap cycUniverse none none n (some cycShape) = .outOfFuel) := by
  constructor
  · intro u pd pk d
    constructor
    · rintro ⟨n, hn⟩
      exact nonlink_of_resolve_ne_out u pd pk n d hn
    · rintro ⟨m, hm⟩
      exact ⟨m, resolve_ne_out_of_nonlink u pd pk m d hm⟩
  · intro n
    induction n with
    | zero => rfl
    | succ n ih =>
        show resolveLinksAndWrap cycUniverse none none n (lookupShape cycUniverse "a") =
          .outOfFuel
        rw [show lookupShape cycUniverse "a" = some cycShape from rfl]
        exact ih

/-! ## C7 -/

theorem jmKeys_append {K V : Type} (l1 l2 : List (K × V)) :
    jmKeys (l1 ++ l2) = jmKeys l1 ++ jmKeys l2 :=
  List.map_append _ _ _

theorem jmKeys_filter_fst {K V : Type} (p : K → Bool) (l : List (K × V)) :
    jmKeys (l.filter (fun kv => p kv.1)) = (jmKeys l).filter p := by
  induction l with
  | nil => rfl
  | cons kv rest ih =>
      by_cases h : p kv.1 = true
      · simp [jmKeys, List.filter_cons, h] at ih ⊢
        exact ih
      · simp only [Bool.not_eq_true] at h
        simp [jmKeys, List.filter_cons, h] at ih ⊢
        exact ih

theorem jmLookup_join_part1 {K V : Type} [BEq K] [LawfulBEq K]
    (f : K → Option V → Option V → V) (m1 m2 : List (K × V)) (k : K) :
    jmLookup (m1.map (fun kv => (kv.1, f kv.1 (some kv.2) (jmLookup m2 kv.1)))) k
      = (jmLookup m1 k).map (fun v => f k (some v) (jmLookup m2 k)) :=
  jmLookup_mapWith (fun k v => f k (some v) (jmLookup m2 k)) m1 k

theorem jmLookup_join_part2 {K V : Type} [BEq K] [LawfulBEq K]
    (f : K → Option V → Option V → V) (l : List (K × V)) (k : K) :
    jmLookup (l.map (fun kv => (kv.1, f kv.1 none (some kv.2)))) k
      = (jmLookup l k).map (fun v => f k none (some v)) :=
  jmLookup_mapWith (fun k v => f k none (some v)) l k

theorem joinMaps_id_lookup {K V : Type} [BEq K] [LawfulBEq K]
    (m1 m2 : List (K × V)) (f : K → Option V → Option V → V) (k : K) :
    jmLookup (joinMaps (m := Id) m1 m2 f) k =
      if jmHas m1 k || jmHas m2 k then some (f k (jmLookup m1 k) (jmLookup m2 k))
      else none := by
  rw [joinMaps_id_eq, jmLookup_append, jmLookup_join_part1]
  rcases hm1 : jmLookup m1 k with _ | v1
  · have hh1 : jmHas m1 k = false := by rw [jmHas_eq_isSome, hm1]; rfl
    rw [jmLookup_join_part2, jmLookup_filter_not_has m1 m2 k hh1]
    rcases hm2 : jmLookup m2 k with _ | v2
    · have hh2 : jmHas m2 k = false := by rw [jmHas_eq_isSome, hm2]; rfl
      simp [hh1, hh2]
    · have hh2 : jmHas m2 k = true := by rw [jmHas_eq_isSome, hm2]; rfl
      simp [hh1, hh2]
  · have hh1 : jmHas m1 k = true := by rw [jmHas_eq_isSome, hm1]; rfl
    simp [hh1]

theorem joinMaps_id_has {K V : Type} [BEq K] [LawfulBEq K]
    (m1 m2 : List (K × V)) (f : K → Option V → Option V → V) (k : K) :
    jmHas (joinMaps (m := Id) m1 m2 f) k = (jmHas m1 k || jmHas m2 k) := by
  rw [jmHas_eq_isSome, joinMaps_id_lookup]
  by_cases h : (jmHas m1 k || jmHas m2 k) = true
  · simp [h]
  · simp only [Bool.not_eq_true] at h
    simp [h]

/-- C7: `joinMaps m1 m2 f` and `joinMaps m2 m1 f'` (with `f'` swapping the
argument order) produce identical key sets - the union of the two key sets -
and map every key of the union to `f key m1[key] m2[key]` (a missing entry
passed as undefined); outside the union the lookup is empty. The iteration
order of `joinMaps m1 m2 f` is deterministic: `m1`'s insertion order first,
then the keys unique to `m2` in `m2`'s order (the result is a pure function
of the inputs, so it is reproducible across runs). -/
theorem claim7_joinMaps_union_determinism {K V : Type} [BEq K] [LawfulBEq K]
    (m1 m2 : List (K × V)) (f : K → Option V → Option V → V) :
    jmKeys (joinMaps (m := Id) m1 m2 f) =
        jmKeys m1 ++ (jmKeys m2).filter (fun k => !(jmHas m1 k)) ∧
    (∀ k, jmHas (joinMaps (m := Id) m1 m2 f) k = (jmHas m1 k || jmHas m2 k)) ∧
    (∀ k, jmHas (joinMaps (m := Id) m2 m1 (fun k a b => f k b a)) k
        = (jmHas m1 k || jmHas m2 k)) ∧
    (∀ k, jmLookup (joinMaps (m := Id) m1 m2 f) k =
        if jmHas m1 k || jmHas m2 k then some (f k (jmLookup m1 k) (jmLookup m2 k))
        else none) ∧
    (∀ k, jmLookup (joinMaps (m := Id) m2 m1 (fun k a b => f k b a)) k =
        if jmHas m1 k || jmHas m2 k then some (f k (jmLookup m1 k) (jmLookup m2 k))
        else none) := by
  refine ⟨?_, ?_, ?_, ?_, ?_⟩
  · rw [joinMaps_id_eq, jmKeys_append,
      jmKeys_mapWith (fun k v => f k (some v) (jmLookup m2 k)) m1,
      jmKeys_mapWith (fun k v => f k none (some v))
        (m2.filter (fun kv => !(jmHas m1 kv.1))),
      jmKeys_filter_fst (fun k => !(jmHas m1 k)) m2]
  · intro k
    exact joinMaps_id_has m1 m2 f k
  · intro k
    rw [joinMaps_id_has m2 m1 _ k, Bool.or_comm]
  · intro k
    exact joinMaps_id_lookup m1 m2 f k
  · intro k
    rw [joinMaps_id_lookup m2 m1 _ k, Bool.or_comm]

/-- Witness for C7 at concrete natural-number maps. -/
theorem claim7_joinMaps_union_determinism_witness :
    jmKeys (joinMaps (m := Id) [(1, 10), (2, 20)] [(2, 200), (3, 300)]
        (fun (_ : Nat) (a b : Option Nat) => a.getD 0 + b.getD 0)) =
      jmKeys [(1, 10), (2, 20)] ++ (jmKeys [(2, 200), (3, 300)]).filter
        (fun k => !(jmHas [(1, 10), (2, 20)] k)) :=
  (claim7_joinMaps_union_determinism [(1, 10), (2, 20)] [(2, 200), (3, 300)]
    (fun _ a b => a.getD 0 + b.getD 0)).1

/-! ## C8 -/

theorem joinBindingsEntry_prev_mismatch (realm : Realm) (cond : Value) (b : Binding)
    (e1 e2 : BindingEntry)
    (h : ¬(e1.previousHasLeaked = e2.previousHasLeaked ∧
        e1.previousValue = e2.previousValue)) (st : BindState) :
    (joinBindingsEntry realm cond b (some e1) (some e2)).run st =
      .error .invariantFailure := by
  obtain ⟨l1, v1, p1, q1⟩ := e1
  obtain ⟨l2, v2, p2, q2⟩ := e2
  simp only [BindingEntry.previousHasLeaked, BindingEntry.previousValue] at h
  cases l1 <;> cases l2 <;>
    simp [joinBindingsEntry, joinValues_opt, StateT.run, bind, StateT.bind, pure,
      StateT.pure, modify, modifyGet, MonadStateOf.modifyGet, StateT.modifyGet,
      StateT.lift, Except.bind, Except.pure, h]

/-- C8: when both branches supply an entry for a binding and their
prior-history fields (`previousHasLeaked`, `previousValue`) disagree,
`joinBindings` fails with a fatal internal (invariant) error instead of
producing a joined binding entry. -/
theorem claim8_joinBindings_prev_mismatch_fatal (realm : Realm) (cond : Value)
    (g1 g2 : Generator) (b : Binding) (e1 e2 : BindingEntry)
    (h : e1.previousHasLeaked ≠ e2.previousHasLeaked ∨
        e1.previousValue ≠ e2.previousValue) :
    joinBindings realm cond g1 [(b, e1)] g2 [(b, e2)] = .error .invariantFailure := by
  have hb : (b == b) = true := by simp
  have hne : ¬(e1.previousHasLeaked = e2.previousHasLeaked ∧
      e1.previousValue = e2.previousValue) := by
    rcases h with h | h
    · exact fun hc => h hc.1
    · exact fun hc => h hc.2
  unfold joinBindings
  rw [joinMaps_single b hb e1 e2]
  rw [show ((do
        let v ← joinBindingsEntry realm cond b (some e1) (some e2)
        pure [(b, v)]) : StateT BindState (Except JoinErr) Bindings).run
        ⟨g1, g2, false, false⟩
      = ((joinBindingsEntry realm cond b (some e1) (some e2)).run
          ⟨g1, g2, false, false⟩ >>= fun vs => .ok ([(b, vs.1)], vs.2)) from rfl]
  rw [joinBindingsEntry_prev_mismatch realm cond b e1 e2 hne]
  rfl

/-- Witness for C8: the two sides disagree on `previousHasLeaked`. -/
theorem claim8_joinBindings_prev_mismatch_fatal_witness :
    joinBindings realm0 condU genA [(⟨0, false, none⟩, ⟨false, none, some true, none⟩)]
      genB [(⟨0, false, none⟩, ⟨false, none, some false, none⟩)] =
      .error .invariantFailure :=
  claim8_joinBindings_prev_mismatch_fatal realm0 condU genA genB ⟨0, false, none⟩
    ⟨false, none, some true, none⟩ ⟨false, none, some false, none⟩
    (Or.inl (by simp))

/-! ## C3 -/

/-- The generator produced by `leak` for a not-yet-rewritten side whose value
is present and not the undefined intrinsic: a fresh wrapping generator
(labelled by the rewrite site) holding the original generator's entries
followed by the explicit binding assignment. -/
theorem leak_some_ne_undef (realm : Realm) (b : Binding) (g : Generator) (y : Value)
    (hy : y ≠ Value.undef) :
    leak realm b g (some y) false =
      (Generator.mk "RewrittenToAppendBindingAssignments" g.pathConditions
        (g.entries ++ [.bindingAssignment b.id y]), true) := by
  obtain ⟨lg, pg, eg⟩ := g
  by_cases hg : (Generator.mk lg pg eg).isEmptyGen = true
  · have he : eg = [] := by
      simpa [Generator.isEmptyGen, Generator.entries, List.isEmpty_iff] using hg
    simp [leak, hg, hy, Generator.appendGenerator, Generator.emitBindingAssignment,
      Generator.label, Generator.pathConditions, Generator.entries, he]
  · simp only [Bool.not_eq_true] at hg
    simp [leak, hg, hy, Generator.appendGenerator, Generator.emitBindingAssignment,
      Generator.label, Generator.pathConditions, Generator.entries]

theorem joinBindingsEntry_leak_one_side (realm : Realm) (cond : Value) (b : Binding)
    (g1 g2 : Generator) (x : Value) (y : Value) (p : Option Bool) (q : Option Value)
    (hy : y ≠ Value.undef) :
    (joinBindingsEntry realm cond b (some ⟨true, some x, p, q⟩)
        (some ⟨false, some y, p, q⟩)).run ⟨g1, g2, false, false⟩ =
      .ok (⟨true, none, p, q⟩,
        ⟨g1, Generator.mk "RewrittenToAppendBindingAssignments" g2.pathConditions
          (g2.entries ++ [.bindingAssignment b.id y]), false, true⟩) := by
  simp [joinBindingsEntry, StateT.run, bind, StateT.bind, pure, StateT.pure, modify,
    modifyGet, MonadStateOf.modifyGet, StateT.modifyGet, StateT.lift, Except.bind,
    Except.pure, leak_some_ne_undef realm b g2 y hy]

/-- C3 (amended): for a binding leaked on exactly one branch, `joinBindings`
joins it with `hasLeaked = true` and value undefined, and patches the
non-leaked branch's generator - through a fresh wrapping generator labelled
"RewrittenToAppendBindingAssignments" that carries the original generator's
entries unchanged, never an in-place mutation - with an explicit
binding-assignment entry writing the non-leaked branch's own last value `y`
(not the leaked branch's value), provided `y` is present and is not the
undefined intrinsic; the leaked branch's generator is returned unchanged. -/
theorem claim3_joinBindings_leak_propagation (realm : Realm) (cond : Value)
    (g1 g2 : Generator) (b : Binding) (x y : Value) (p : Option Bool)
    (q : Option Value) (hy : y ≠ Value.undef) :
    joinBindings realm cond g1 [(b, ⟨true, some x, p, q⟩)]
        g2 [(b, ⟨false, some y, p, q⟩)] =
      .ok (g1,
        Generator.mk "RewrittenToAppendBindingAssignments" g2.pathConditions
          (g2.entries ++ [.bindingAssignment b.id y]),
        [(b, ⟨true, none, p, q⟩)]) := by
  have hb : (b == b) = true := by simp
  unfold joinBindings
  rw [joinMaps_single b hb]
  rw [show ((do
        let v ← joinBindingsEntry realm cond b (some ⟨true, some x, p, q⟩)
            (some ⟨false, some y, p, q⟩)
        pure [(b, v)]) : StateT BindState (Except JoinErr) Bindings).run
        ⟨g1, g2, false, false⟩
      = ((joinBindingsEntry realm cond b (some ⟨true, some x, p, q⟩)
          (some ⟨false, some y, p, q⟩)).run
          ⟨g1, g2, false, false⟩ >>= fun vs => .ok ([(b, vs.1)], vs.2)) from rfl]
  rw [joinBindingsEntry_leak_one_side realm cond b g1 g2 x y p q hy]
  rfl

/-- Witness for C3 (amended) at a concrete binding, values `x = 1`, `y = 2`. -/
theorem claim3_joinBindings_leak_propagation_witness :
    joinBindings realm0 condU (.mk "g1" [] []) [(⟨0, false, none⟩, ⟨true, some (.num 1), none, none⟩)]
      (.mk "g2" [] []) [(⟨0, false, none⟩, ⟨false, some (.num 2), none, none⟩)] =
      .ok (.mk "g1" [] [],
        Generator.mk "RewrittenToAppendBindingAssignments" [] [.bindingAssignment 0 (.num 2)],
        [(⟨0, false, none⟩, ⟨true, none, none, none⟩)]) :=
  claim3_joinBindings_leak_propagation realm0 condU (.mk "g1" [] []) (.mk "g2" [] [])
    ⟨0, false, none⟩ (.num 1) (.num 2) none none (by simp)

/-- Counterexample to C3 as stated: branch A's entry leaked with last value
`x = 1`, branch B's entry did not leak and has last value `y = 2`. The claim
predicts an assignment of `x = 1` into B's generator; the code emits an
assignment of B's own value `y = 2`, and no assignment of `x` appears. -/
theorem claim3_counterexample :
    joinBindings realm0 condU (.mk "g1" [] []) [(⟨0, false, none⟩, ⟨true, some (.num 1), none, none⟩)]
      (.mk "g2" [] []) [(⟨0, false, none⟩, ⟨false, some (.num 2), none, none⟩)] =
      .ok (.mk "g1" [] [],
        Generator.mk "RewrittenToAppendBindingAssignments" [] [.bindingAssignment 0 (.num 2)],
        [(⟨0, false, none⟩, ⟨true, none, none, none⟩)]) ∧
    ¬ ((GenEntryF.bindingAssignment 0 (.num 1) : GenEntry) ∈
        ([.bindingAssignment 0 (.num 2)] : List GenEntry)) := by
  constructor
  · rfl
  · intro hmem
    rw [List.mem_singleton] at hmem
    have h12 : (Value.num 1) = (Value.num 2) := by
      injection hmem with h1 h2
    exact absurd h12 (by decide)

/-! ## C4 -/

/-- The kind tag of a simple abrupt completion (break/continue/return/throw);
`none` for anything else. -/
def simpleAbruptKind : Completion → Option Nat
  | .breakCompletion _ _ _ => some 0
  | .continueCompletion _ _ _ => some 1
  | .returnCompletion _ _ => some 2
  | .throwCompletion _ _ => some 3
  | _ => none

/-- The jump target carried by a break or continue completion. -/
def jumpTargetOf : Completion → Option String
  | .breakCompletion _ t _ => t
  | .continueCompletion _ t _ => t
  | _ => none

/-- C4 (amended): `collapseResults` collapses two same-target breaks to one
break with the joined value, two same-target continues to one continue, two
returns to one return with the joined value, and two throws to one throw
whose value is the join of the two thrown values under the plain conditional
abstraction - the conditional abstract value "cond ? a : b", except when the
two thrown values are strictly-equal concrete values, in which case the
shared value itself is used; every mismatched pair of simple abrupt kinds, or
same-kind jumps to different targets, is a reported introspection error (a
structured `Except` error, not a silent merge). -/
theorem claim4_collapseResults_abrupt_matching :
    (∀ (realm : Realm) (cond : Value) (pe : Effects) (v1 v2 : Value)
        (t : Option String) (x1 x2 : OEffects),
      collapseResults realm cond pe (.completion (.breakCompletion v1 t x1))
          (.completion (.breakCompletion v2 t x2)) =
        .ok (.breakCompletion (joinVal2 v1 v2 (gavSubstEmpty cond)) t (.someE pe))) ∧
    (∀ (realm : Realm) (cond : Value) (pe : Effects) (v1 v2 : Value)
        (t : Option String) (x1 x2 : OEffects),
      collapseResults realm cond pe (.completion (.continueCompletion v1 t x1))
          (.completion (.continueCompletion v2 t x2)) =
        .ok (.continueCompletion .empty t (.someE pe))) ∧
    (∀ (realm : Realm) (cond : Value) (pe : Effects) (v1 v2 : Value) (x1 x2 : OEffects),
      collapseResults realm cond pe (.completion (.returnCompletion v1 x1))
          (.completion (.returnCompletion v2 x2)) =
        .ok (.returnCompletion (joinVal2 v1 v2 (gavSubstEmpty cond)) (.someE pe))) ∧
    (∀ (realm : Realm) (cond : Value) (pe : Effects) (v1 v2 : Value) (x1 x2 : OEffects),
      collapseResults realm cond pe (.completion (.throwCompletion v1 x1))
          (.completion (.throwCompletion v2 x2)) =
        .ok (.throwCompletion
          (joinVal2 v1 v2 (fun a b => createFromConditionalOp cond a b)) (.someE pe))) ∧
    (∀ (realm : Realm) (cond : Value) (pe : Effects) (c1 c2 : Completion),
      (simpleAbruptKind c1).isSome = true → (simpleAbruptKind c2).isSome = true →
      (simpleAbruptKind c1 ≠ simpleAbruptKind c2 ∨ jumpTargetOf c1 ≠ jumpTargetOf c2) →
      collapseResults realm cond pe (.completion c1) (.completion c2) =
        .error .introspection) := by
  refine ⟨?_, ?_, ?_, ?_, ?_⟩
  · intro realm cond pe v1 v2 t x1 x2
    simp only [collapseResults, joinValues_val_val, if_pos]
    rfl
  · intro realm cond pe v1 v2 t x1 x2
    simp [collapseResults]
  · intro realm cond pe v1 v2 x1 x2
    simp only [collapseResults, joinValues_val_val]
    rfl
  · intro realm cond pe v1 v2 x1 x2
    simp only [collapseResults, joinValues_val_val]
    rfl
  · intro realm cond pe c1 c2 h1 h2 h3
    cases c1 <;> cases c2 <;>
      simp_all [simpleAbruptKind, jumpTargetOf, collapseResults]

/-- Witness for C4: a break to "L1" against a continue to "L2" is a reported
introspection error. -/
theorem claim4_collapseResults_abrupt_matching_witness :
    collapseResults realm0 condU effB
        (.completion (.breakCompletion (.num 1) (some "L1") .noneE))
        (.completion (.continueCompletion (.num 2) (some "L2") .noneE)) =
      .error .introspection :=
  claim4_collapseResults_abrupt_matching.2.2.2.2 realm0 condU effB
    (.breakCompletion (.num 1) (some "L1") .noneE)
    (.continueCompletion (.num 2) (some "L2") .noneE)
    rfl rfl (Or.inl (by decide))

/-- Counterexample to C4 as stated: joining two throws of the same concrete
value `true` yields a throw of that shared concrete value, not the
conditional abstract value "cond ? true : true". -/
theorem claim4_counterexample :
    collapseResults realm0 condU effB
        (.completion (.throwCompletion (.bool true) .noneE))
        (.completion (.throwCompletion (.bool true) .noneE)) =
      .ok (.throwCompletion (.bool true) (.someE effB)) ∧
    Value.bool true ≠ createFromConditionalOp condU (some (.bool true)) (some (.bool true)) :=
  ⟨rfl, by decide⟩

/-! ## C2 -/

theorem isSimpleNormal_false_of_isAbrupt (c : Completion) (h : c.isAbrupt = true) :
    c.isSimpleNormal = false := by
  cases c <;> simp_all [Completion.isAbrupt, Completion.isSimpleNormal]

theorem isNormalCompletion_false_of_isAbrupt (c : Completion) (h : c.isAbrupt = true) :
    c.isNormalCompletion = false := by
  cases c <;> simp_all [Completion.isAbrupt, Completion.isNormalCompletion]

theorem joinOrForkResults_abrupt_normal (realm : Realm) (cond : Value)
    (e1 e2 : Effects) (c1 c2 : Completion) (v : Value) (eff : OEffects)
    (ha1 : c1.isAbrupt = true) (ha2 : c2.isAbrupt = false)
    (hleaf : (if c2.isPossiblyNormal then c2.getNormalCompletion else some c2) =
      some (.simpleNormal v eff)) :
    joinOrForkResults realm cond (.completion c1) (.completion c2) e1 e2 =
      .ok (.possiblyNormal v cond c1 e1 c2 e2
        c2.savedPathConditionsOf c2.savedEffectsOf) := by
  simp [joinOrForkResults, isSimpleNormal_false_of_isAbrupt c1 ha1, ha1, ha2,
    isNormalCompletion_false_of_isAbrupt c1 ha1, hleaf]

theorem joinOrForkResults_normal_abrupt (realm : Realm) (cond : Value)
    (e1 e2 : Effects) (c1 c2 : Completion) (v : Value) (eff : OEffects)
    (ha1 : c1.isAbrupt = false) (ha2 : c2.isAbrupt = true)
    (hleaf : (if c1.isPossiblyNormal then c1.getNormalCompletion else some c1) =
      some (.simpleNormal v eff)) :
    joinOrForkResults realm cond (.completion c1) (.completion c2) e1 e2 =
      .ok (.possiblyNormal v cond c1 e1 c2 e2
        c1.savedPathConditionsOf c1.savedEffectsOf) := by
  simp [joinOrForkResults, isSimpleNormal_false_of_isAbrupt c2 ha2, ha1, ha2,
    isNormalCompletion_false_of_isAbrupt c2 ha2, hleaf]

/-- C2 (amended): joining under a genuinely two-sided condition with exactly
one abrupt side yields a possibly-normal fork; the *normal* (non-abrupt)
side's effects record stored inside the fork tree is emptied of its residual
generator content - its generator is replaced by `construct_empty_effects`'
fresh empty generator, because that generator is hoisted into the returned
top-level effects - while the abrupt side's effects record, generator
included, remains tracked unchanged inside the tree; the returned effects
carry the normal side's original generator, bindings, properties and created
objects. -/
theorem claim2_joinForkOrChoose_one_abrupt :
    (∀ (realm : Realm) (cond : Value) (e1 e2 : Effects) (c1 c2 : Completion)
        (v : Value) (eff : OEffects),
      cond.mightNotBeTrue = true → cond.mightNotBeFalse = true →
      e1.result = .completion c1 → e2.result = .completion c2 →
      c1.isAbrupt = true → c2.isAbrupt = false →
      (if c2.isPossiblyNormal then c2.getNormalCompletion else some c2) =
        some (.simpleNormal v eff) →
      joinForkOrChoose realm cond e1 e2 = .ok (Effects.mk
        (.completion (.possiblyNormal v cond c1 e1 c2
          (e2.withGenerator (construct_empty_effects realm).generator)
          c2.savedPathConditionsOf c2.savedEffectsOf))
        e2.generator e2.modifiedBindings e2.modifiedProperties e2.createdObjects)) ∧
    (∀ (realm : Realm) (cond : Value) (e1 e2 : Effects) (c1 c2 : Completion)
        (v : Value) (eff : OEffects),
      cond.mightNotBeTrue = true → cond.mightNotBeFalse = true →
      e1.result = .completion c1 → e2.result = .completion c2 →
      c1.isAbrupt = false → c2.isAbrupt = true →
      (if c1.isPossiblyNormal then c1.getNormalCompletion else some c1) =
        some (.simpleNormal v eff) →
      joinForkOrChoose realm cond e1 e2 = .ok (Effects.mk
        (.completion (.possiblyNormal v cond c1
          (e1.withGenerator (construct_empty_effects realm).generator) c2 e2
          c1.savedPathConditionsOf c1.savedEffectsOf))
        e1.generator e1.modifiedBindings e1.modifiedProperties e1.createdObjects)) := by
  constructor
  · intro realm cond e1 e2 c1 c2 v eff h1 h2 he1 he2 ha1 ha2 hleaf
    have habs := twoSided_isAbstract cond h1 h2
    have hjofr := joinOrForkResults_abrupt_normal realm cond e1 e2 c1 c2 v eff ha1 ha2 hleaf
    simp only [joinForkOrChoose, h1, h2, habs, he1, he2, hjofr, EvalResult.isAbruptR,
      ha1, ha2, Bool.not_true, Bool.not_false, Bool.and_true, Bool.and_false,
      Bool.true_and, Bool.false_and, if_false, if_true]
    rfl
  · intro realm cond e1 e2 c1 c2 v eff h1 h2 he1 he2 ha1 ha2 hleaf
    have habs := twoSided_isAbstract cond h1 h2
    have hjofr := joinOrForkResults_normal_abrupt realm cond e1 e2 c1 c2 v eff ha1 ha2 hleaf
    simp only [joinForkOrChoose, h1, h2, habs, he1, he2, hjofr, EvalResult.isAbruptR,
      ha1, ha2, Bool.not_true, Bool.not_false, Bool.and_true, Bool.and_false,
      Bool.true_and, Bool.false_and, if_false, if_true]
    rfl

/-- Witness for C2 (amended): a throwing branch joined with a normal branch. -/
theorem claim2_joinForkOrChoose_one_abrupt_witness :
    joinForkOrChoose realm0 condU effA effB = .ok (Effects.mk
      (.completion (.possiblyNormal (.num 2) condU (.throwCompletion (.num 1) .noneE) effA
        (.simpleNormal (.num 2) .noneE)
        (effB.withGenerator (construct_empty_effects realm0).generator)
        (Completion.savedPathConditionsOf (.simpleNormal (.num 2) .noneE))
        (Completion.savedEffectsOf (.simpleNormal (.num 2) .noneE))))
      effB.generator effB.modifiedBindings effB.modifiedProperties effB.createdObjects) :=
  claim2_joinForkOrChoose_one_abrupt.1 realm0 condU effA effB
    (.throwCompletion (.num 1) .noneE) (.simpleNormal (.num 2) .noneE)
    (.num 2) .noneE rfl rfl rfl rfl rfl rfl rfl

/-- Counterexample to C2 as stated: the abrupt (throwing) side's effects
record inside the fork tree keeps its non-empty generator (entries
`[residualOp 7]`), so it is not "emptied of its residual generator content";
it is the normal side's stored record whose generator is reset. -/
theorem claim2_counterexample :
    joinForkOrChoose realm0 condU effA effB = .ok (Effects.mk
      (.completion (.possiblyNormal (.num 2) condU (.throwCompletion (.num 1) .noneE) effA
        (.simpleNormal (.num 2) .noneE)
        (effB.withGenerator (construct_empty_effects realm0).generator) [] .noneE))
      genB [] [] []) ∧
    effA.generator.entries = [.residualOp 7] ∧
    ([.residualOp 7] : List GenEntry) ≠ [] := by
  refine ⟨rfl, rfl, ?_⟩
  intro h
  exact absurd h (by simp)

/-! ## C5 -/

theorem pb_beq_self (pb : PropertyBinding) : (pb == pb) = true := by
  show (pb.objectId == pb.objectId && pb.key == pb.key) = true
  simp

theorem joinVal2_empty_right (w : Value) (gav : Option Value → Option Value → Value)
    (hw : w ≠ Value.empty) :
    joinVal2 w Value.empty gav = gav (some w) (some Value.empty) := by
  by_cases hA : w.isAbstract = true
  · simp [joinVal2, hA]
  · simp only [Bool.not_eq_true] at hA
    simp [joinVal2, hA, throwIfNotConcrete, strictEq_empty_right w hw,
      Value.isAbstract]

theorem joinPropertyBindingsEntry_deleted (realm : Realm) (cond : Value)
    (o : Nat) (key : String) (wopt eopt copt : Option Bool)
    (v0 : Option ValueOrArray) (w : Value) (c1 c2 : CreatedObjects)
    (m1x : PropertyBindings)
    (ho : c1.contains o = false) (hw : w ≠ Value.empty) :
    joinPropertyBindingsEntry realm cond m1x
        [(⟨o, key, some (Descriptor.mk wopt eopt copt v0 none none none none none)⟩,
          none)] c1 c2
        ⟨o, key, some (Descriptor.mk wopt eopt copt v0 none none none none none)⟩
        (some (Descriptor.mk wopt eopt copt (some (.val w)) none none none none none))
        none =
      .ok (some (Descriptor.mk wopt eopt copt
        (some (.val (createFromConditionalOp cond (some w) (some Value.empty))))
        none none none none none)) := by
  have hpb := pb_beq_self
    (⟨o, key, some (Descriptor.mk wopt eopt copt v0 none none none none none)⟩ :
      PropertyBinding)
  simp only [joinPropertyBindingsEntry, joinPropertyBindingsSide2, ho,
    Bool.false_eq_true, if_false, jmHas, List.any, hpb, Bool.or_false,
    Option.isSome, Bool.and_true, Bool.true_and, cloneDescriptor, Option.map,
    Descriptor.withValue, Descriptor.writable, Descriptor.enumerable,
    Descriptor.configurable, Descriptor.value, Descriptor.get, Descriptor.set,
    Descriptor.joinCondition, Descriptor.descriptor1, Descriptor.descriptor2]
  simp only [joinDescriptors, equalDescriptors, Descriptor.writable,
    Descriptor.enumerable, Descriptor.configurable, Descriptor.value,
    Descriptor.get, Descriptor.set, Descriptor.joinCondition,
    Descriptor.descriptor1, Descriptor.descriptor2, Option.isSome,
    Option.isNone, IsDataDescriptor, beq_self_eq_true, Bool.and_self,
    Bool.and_true, Bool.true_and, Bool.or_true, Bool.true_or, if_true,
    cloneDescriptor, joinValues_val_val,
    joinVal2_empty_right w (fun a b => createFromConditionalOp cond a b) hw]
  rfl

/-- C5: for a heap slot written on branch 1 (value `w`) and carrying a
deletion marker on branch 2 (an entry present with no descriptor, while a
pre-fork descriptor exists), `joinPropertyBindings` synthesizes for the
deleting side a clone of the pre-fork descriptor with its value replaced by
the `empty` sentinel, and `joinDescriptors` joins it with the written
descriptor into a data descriptor whose value is the conditional abstract
value with the written value on one side and `empty` ("absent") on the other
- no error and no loss of either branch's outcome. -/
theorem claim5_joinPropertyBindings_deletion_synthesis (realm : Realm) (cond : Value)
    (o : Nat) (key : String) (wopt eopt copt : Option Bool)
    (v0 : Option ValueOrArray) (w : Value) (c1 c2 : CreatedObjects)
    (ho : c1.contains o = false) (hw : w ≠ Value.empty) :
    joinPropertyBindings realm cond
        [(⟨o, key, some (Descriptor.mk wopt eopt copt v0 none none none none none)⟩,
          some (Descriptor.mk wopt eopt copt (some (.val w)) none none none none none))]
        [(⟨o, key, some (Descriptor.mk wopt eopt copt v0 none none none none none)⟩,
          none)]
        c1 c2 =
      .ok [(⟨o, key, some (Descriptor.mk wopt eopt copt v0 none none none none none)⟩,
        some (Descriptor.mk wopt eopt copt
          (some (.val (createFromConditionalOp cond (some w) (some Value.empty))))
          none none none none none))] := by
  have hpb := pb_beq_self
    (⟨o, key, some (Descriptor.mk wopt eopt copt v0 none none none none none)⟩ :
      PropertyBinding)
  unfold joinPropertyBindings
  rw [joinMaps_single _ hpb]
  rw [show (Option.join (some (some (Descriptor.mk wopt eopt copt (some (.val w))
      none none none none none)))) = some (Descriptor.mk wopt eopt copt (some (.val w))
      none none none none none) from rfl]
  rw [show (Option.join (some (none : Option Descriptor))) = none from rfl]
  rw [joinPropertyBindingsEntry_deleted realm cond o key wopt eopt copt v0 w c1 c2 _
    ho hw]
  rfl

/-- Witness for C5: property "p" of object `0`, written value `5` on one
branch, deleted on the other. -/
theorem claim5_joinPropertyBindings_deletion_synthesis_witness :
    joinPropertyBindings realm0 condU
        [(⟨0, "p", some (Descriptor.mk none none none (some (.val (.num 0)))
            none none none none none)⟩,
          some (Descriptor.mk none none none (some (.val (.num 5))) none none none none none))]
        [(⟨0, "p", some (Descriptor.mk none none none (some (.val (.num 0)))
            none none none none none)⟩, none)]
        [] [] =
      .ok [(⟨0, "p", some (Descriptor.mk none none none (some (.val (.num 0)))
            none none none none none)⟩,
        some (Descriptor.mk none none none
          (some (.val (createFromConditionalOp condU (some (.num 5)) (some Value.empty))))
          none none none none none))] :=
  claim5_joinPropertyBindings_deletion_synthesis realm0 condU 0 "p" none none none
    (some (.val (.num 0))) (.num 5) [] [] rfl (by decide)
